import Mathlib

/-!
Verification of the terminal shell in assets/js/terminal.js: a shallow
embedding of the command dispatcher, the section navigation, the transcript,
the command history recall and the konami key watcher, together with proofs
of the specified properties.

The DOM surface is modelled explicitly: the section elements and nav links
captured at start-up become lists of (identifier, active-class) pairs, the
output container becomes a list of transcript lines tagged with whether they
carry the terminal-output-line class, and the single-line input control
becomes a string field.  All machine behaviour (string trimming, ASCII
lower-casing, splitting at space characters, array indexing that can yield
undefined) is translated from the JavaScript source.
-/

namespace Terminal

/-- JavaScript String.prototype.trim on the character list of a string:
whitespace removed from both ends. -/
def jsTrimList (l : List Char) : List Char :=
  ((l.dropWhile Char.isWhitespace).reverse.dropWhile Char.isWhitespace).reverse

/-- The normalised character list the dispatcher works on, that is
input.trim().toLowerCase() from terminal.js line 159 (Char.toLower is the
ASCII lower-casing, the effect toLowerCase has on the characters this page
handles). -/
def normChars (l : List Char) : List Char :=
  (jsTrimList l).map Char.toLower

/-- Splitting a character list at every character satisfying p, keeping the
empty pieces between adjacent separators, exactly as the JavaScript
String.prototype.split does. -/
def splitBy (p : Char → Bool) : List Char → List (List Char)
  | [] => [[]]
  | c :: cs =>
    if p c then [] :: splitBy p cs
    else
      match splitBy p cs with
      | [] => [[c]]
      | w :: ws => (c :: w) :: ws

/-- The token list input.trim().toLowerCase().split(' ') of terminal.js
line 159: the whole line is trimmed and lower-cased, then split at single
space characters. -/
def tokens (input : String) : List String :=
  (splitBy (fun c => c == ' ') (normChars input.data)).map List.asString

/-- Whether a line of the output container carries the terminal-output-line
class (appended command output) or belongs to the initial boot markup. -/
inductive LineKind where
  | boot
  | commandOutput
deriving DecidableEq, Repr

/-- One child of the output container. -/
structure TranscriptLine where
  kind : LineKind
  text : String
deriving DecidableEq, Repr

/-- The page state: the session state of terminal.js (currentSection,
commandHistory, historyIndex) together with the DOM surface it reads and
writes. -/
structure TermState where
  currentSection : String
  commandHistory : List String
  historyIndex : Int
  sections : List (String × Bool)
  navLinks : List (String × Bool)
  transcript : List TranscriptLine
  inputValue : String
  matrixDisplay : String
  themeVars : List (String × String)
  scheduledOutputs : List String
deriving DecidableEq, Repr

/-- classList.remove applied to every captured section element. -/
def deactivateAll (l : List (String × Bool)) : List (String × Bool) :=
  l.map (fun s => (s.1, false))

/-- classList.add on the element document.getElementById returns: the first
entry with the given identifier receives the active class. -/
def setActiveFirst : List (String × Bool) → String → List (String × Bool)
  | [], _ => []
  | s :: rest, id => if s.1 = id then (s.1, true) :: rest else s :: setActiveFirst rest id

/-- navigateToSection from terminal.js lines 59-82: every section first loses
the active class; only when an element with the requested identifier exists
is it activated, currentSection recorded, and the nav-link highlighting
rebuilt to match the href of the requested section. -/
def navigateToSection (st : TermState) (sectionId : String) : TermState :=
  let hidden := deactivateAll st.sections
  if sectionId ∈ hidden.map Prod.fst then
    { st with
      sections := setActiveFirst hidden sectionId
      currentSection := sectionId
      navLinks := st.navLinks.map (fun link => (link.1, link.1 == "#" ++ sectionId)) }
  else
    { st with sections := hidden }

/-- The five section names the cd command accepts. -/
def validSections : List String :=
  ["home", "about", "projects", "blog", "contact"]

/-- The static help text, the trimmed template literal of commands.help. -/
def helpText : String :=
  "Available commands:\n  help     - Show this help message\n  ls       - List available sections\n  cd       - Navigate to section (e.g., cd about)\n  clear    - Clear terminal output (also: cls, Ctrl+L)\n  whoami   - Display user information\n  skills   - Show technical skills\n  contact  - Display contact information\n  matrix   - Toggle matrix effect\n  theme    - Change terminal theme\n  hack     - Initiate hacking sequence (easter egg)"

/-- commands.help. -/
def cmdHelp (st : TermState) (_ : List String) : TermState × String :=
  (st, helpText)

/-- commands.ls. -/
def cmdLs (st : TermState) (_ : List String) : TermState × String :=
  (st, "home/  about/  projects/  blog/  contact/")

/-- commands.cd: args[0] is undefined when no argument was given, and the
JavaScript template literal renders undefined as the text undefined. -/
def cmdCd (st : TermState) (args : List String) : TermState × String :=
  match args.head? with
  | some sec =>
    if sec ∈ validSections then
      (navigateToSection st sec, "Navigating to " ++ sec ++ "...")
    else
      (st, "Error: " ++ sec ++ ": No such directory")
  | none => (st, "Error: undefined: No such directory")

/-- commands.clear: removes every child of the output container that carries
the terminal-output-line class, keeping the boot markup, and returns the
empty string. -/
def cmdClear (st : TermState) (_ : List String) : TermState × String :=
  ({ st with transcript := st.transcript.filter (fun l => l.kind ≠ LineKind.commandOutput) }, "")

/-- commands.cls, the alias that calls commands.clear. -/
def cmdCls (st : TermState) (args : List String) : TermState × String :=
  cmdClear st args

/-- commands.whoami. -/
def cmdWhoami (st : TermState) (_ : List String) : TermState × String :=
  (st, "Lev Kozhokaru - Software Engineer | Dev Tools Creator | AI Integration Specialist")

/-- commands.skills. -/
def cmdSkills (st : TermState) (_ : List String) : TermState × String :=
  (st, "Languages: JavaScript, Python, TypeScript\nAI/ML: Claude, GPT, Custom LLM Orchestration\nTools: React, Node.js, Docker, AWS\nFocus: Building dev tools that actually work")

/-- commands.contact. -/
def cmdContact (st : TermState) (_ : List String) : TermState × String :=
  (st, "GitHub: https://github.com/kozhokaru\nLinkedIn: https://linkedin.com/in/levkoz")

/-- commands.matrix together with toggleMatrixEffect. -/
def cmdMatrix (st : TermState) (_ : List String) : TermState × String :=
  ({ st with matrixDisplay := if st.matrixDisplay = "none" then "block" else "none" },
    "Matrix effect toggled")

/-- The default palette of changeTheme. -/
def themeDefault : List (String × String) :=
  [("--text-primary", "#00ff41"), ("--accent-cyan", "#00d9ff"), ("--bg-primary", "#0a0e27")]

/-- The amber palette of changeTheme. -/
def themeAmber : List (String × String) :=
  [("--text-primary", "#ffb000"), ("--accent-cyan", "#ff6b00"), ("--bg-primary", "#1a0f00")]

/-- The ice palette of changeTheme. -/
def themeIce : List (String × String) :=
  [("--text-primary", "#00ffff"), ("--accent-cyan", "#0080ff"), ("--bg-primary", "#000033")]

/-- themes[theme] with the fallback to the default palette. -/
def themePalette : String → List (String × String)
  | "amber" => themeAmber
  | "ice" => themeIce
  | _ => themeDefault

/-- commands.theme: args[0] falls back to the name default when absent or
empty (JavaScript falsiness), changeTheme installs the palette, and the
confirmation names the requested theme. -/
def cmdTheme (st : TermState) (args : List String) : TermState × String :=
  let t := match args.head? with
    | some s => if s = "" then "default" else s
    | none => "default"
  ({ st with themeVars := themePalette t }, "Theme changed to: " ++ t)

/-- The five messages initiateHackingSequence schedules. -/
def hackMessages : List String :=
  ["ACCESSING MAINFRAME...", "BYPASSING FIREWALL...", "INJECTING PAYLOAD...",
   "EXTRACTING DATA...", "HACK COMPLETE! Just kidding :)"]

/-- commands.hack: the five messages are scheduled on timers (modelled as the
pending list) and the placeholder string is returned at once. -/
def cmdHack (st : TermState) (_ : List String) : TermState × String :=
  ({ st with scheduledOutputs := st.scheduledOutputs ++ hackMessages },
    "INITIATING HACK SEQUENCE...")

/-- The Command Registry: the own properties of the commands object literal
built in setupTerminalCommands, mapped to their handlers.  The inherited
properties the JavaScript lookup can also reach are modelled separately by
commandProperty. -/
def lookupCommand : String → Option (TermState → List String → TermState × String)
  | "help" => some cmdHelp
  | "ls" => some cmdLs
  | "cd" => some cmdCd
  | "clear" => some cmdClear
  | "cls" => some cmdCls
  | "whoami" => some cmdWhoami
  | "skills" => some cmdSkills
  | "contact" => some cmdContact
  | "matrix" => some cmdMatrix
  | "theme" => some cmdTheme
  | "hack" => some cmdHack
  | _ => none

/-- The single quotation mark appearing in the not-found message. -/
def quoteMark : String :=
  String.singleton (Char.ofNat 39)

/-- The fixed message for an unrecognised command word. -/
def notFoundMsg (cmd : String) : String :=
  "Command not found: " ++ cmd ++ ". Type " ++ quoteMark ++ "help" ++ quoteMark
    ++ " for available commands."

/-- Dispatch of an already-split token list: the head is the command word,
the rest are its arguments; a registered handler is invoked, otherwise the
fixed not-found message names the command word. -/
def dispatchTokens (st : TermState) (ts : List String) : TermState × String :=
  let cmd := ts.headD ""
  match lookupCommand cmd with
  | some handler => handler st ts.tail
  | none => (st, notFoundMsg cmd)

/-- window.executeCommand from terminal.js lines 158-164, restricted to the
command words on which the property lookup finds an own property or nothing
at all; executeCommandJs below extends it with the two inherited property
names and is the full model of the source.  The two functions agree
everywhere else (executeCommandJs_agrees). -/
def executeCommand (st : TermState) (input : String) : TermState × String :=
  dispatchTokens st (tokens input)

/-- The JavaScript value the property lookup commands[cmd] finds.  Beyond
the eleven registered handlers, the lookup walks the prototype chain of the
object literal; because the line was lower-cased first, exactly two
inherited names are reachable: constructor (the callable Object
constructor function) and the proto accessor returning Object.prototype
(truthy but not callable).  Every other name is undefined, which is
falsy. -/
inductive CommandProperty where
  | registered (f : TermState → List String → TermState × String)
  | objectConstructor
  | objectPrototype
  | undefinedProp

/-- The property lookup commands[cmd] of terminal.js line 160: own
properties first, then the two reachable properties inherited from
Object.prototype. -/
def commandProperty (cmd : String) : CommandProperty :=
  match lookupCommand cmd with
  | some f => CommandProperty.registered f
  | none =>
    if cmd = "constructor" then CommandProperty.objectConstructor
    else if cmd = "__proto__" then CommandProperty.objectPrototype
    else CommandProperty.undefinedProp

/-- A value the dispatch can hand back: the registered handlers return
strings, while the inherited Object constructor applied to the argument
array returns that array itself, a non-string. -/
inductive JsValue where
  | str (s : String)
  | array (xs : List String)
deriving DecidableEq, Repr

/-- window.executeCommand with the full JavaScript property semantics;
Except.error models a thrown TypeError.  A registered handler runs
normally; the word constructor passes the truthiness guard and Object(args)
returns the argument array unchanged, leaving the page state alone; the
proto word passes the guard with Object.prototype, which is not callable,
so the call throws; every other unregistered word finds undefined, which is
falsy, and yields the fixed not-found message. -/
def executeCommandJs (st : TermState) (input : String) :
    Except String (TermState × JsValue) :=
  let ts := tokens input
  match commandProperty (ts.headD "") with
  | CommandProperty.registered f =>
      Except.ok ((f st ts.tail).1, JsValue.str (f st ts.tail).2)
  | CommandProperty.objectConstructor => Except.ok (st, JsValue.array ts.tail)
  | CommandProperty.objectPrototype =>
      Except.error "TypeError: commands[cmd] is not a function"
  | CommandProperty.undefinedProp =>
      Except.ok (st, JsValue.str (notFoundMsg (ts.headD "")))

/-- displayOutput from terminal.js lines 197-208: a pre element with the
terminal-output-line class is created with the given text and appended to
the output container, unconditionally. -/
def displayOutput (st : TermState) (text : String) : TermState :=
  { st with transcript := st.transcript ++ [{ kind := LineKind.commandOutput, text := text }] }

/-- The non-blank Enter work of handleTerminalInput: dispatch the trimmed
input, append the returned text as a transcript line, push the input onto
the history, move the cursor one past the end, and clear the field. -/
def enterCommit (st : TermState) (input : String) : TermState :=
  let res := executeCommand st input
  let st2 := displayOutput res.1 res.2
  let hist := st2.commandHistory ++ [input]
  { st2 with commandHistory := hist, historyIndex := (hist.length : Int), inputValue := "" }

/-- The Enter branch of handleTerminalInput: trim the field, and when the
result is non-empty commit it. -/
def handleEnter (st : TermState) : TermState :=
  let input : String := ⟨jsTrimList st.inputValue.data⟩
  if input = "" then st else enterCommit st input

/-- JavaScript array indexing commandHistory[i]: out-of-range access yields
undefined, which the value assignment renders as the text undefined. -/
def histGet (l : List String) (i : Int) : String :=
  if 0 ≤ i ∧ i < (l.length : Int) then l.getD i.toNat "undefined" else "undefined"

/-- The ArrowUp branch of handleTerminalInput. -/
def handleArrowUp (st : TermState) : TermState :=
  if st.historyIndex > 0 then
    { st with
      historyIndex := st.historyIndex - 1
      inputValue := histGet st.commandHistory (st.historyIndex - 1) }
  else st

/-- The ArrowDown branch of handleTerminalInput. -/
def handleArrowDown (st : TermState) : TermState :=
  if st.historyIndex < (st.commandHistory.length : Int) - 1 then
    { st with
      historyIndex := st.historyIndex + 1
      inputValue := histGet st.commandHistory (st.historyIndex + 1) }
  else
    { st with historyIndex := (st.commandHistory.length : Int), inputValue := "" }

/-- handleTerminalInput from terminal.js lines 168-194, keyed on e.key. -/
def handleTerminalInput (st : TermState) (key : String) : TermState :=
  if key = "Enter" then handleEnter st
  else if key = "ArrowUp" then handleArrowUp st
  else if key = "ArrowDown" then handleArrowDown st
  else st

/-- An event on the input control: the user replacing the field content by
typing, or a key handled by handleTerminalInput. -/
inductive TermEvent where
  | setInput (s : String)
  | key (k : String)
deriving DecidableEq, Repr

/-- One event step of the input control. -/
def stepEvent (st : TermState) : TermEvent → TermState
  | TermEvent.setInput s => { st with inputValue := s }
  | TermEvent.key k => handleTerminalInput st k

/-- A sequence of events on the input control. -/
def runEvents (st : TermState) (evs : List TermEvent) : TermState :=
  evs.foldl stepEvent st

/-- The fixed ten-key konami sequence of terminal.js line 452. -/
def konamiCode : List String :=
  ["ArrowUp", "ArrowUp", "ArrowDown", "ArrowDown", "ArrowLeft", "ArrowRight",
   "ArrowLeft", "ArrowRight", "b", "a"]

/-- One keydown seen by the konami watcher (terminal.js lines 455-465):
returns the new progress cursor and whether the easter egg fired. -/
def konamiStep (i : Nat) (key : String) : Nat × Bool :=
  if key = konamiCode.getD i "" then
    if i + 1 = konamiCode.length then (0, true) else (i + 1, false)
  else (0, false)

/-- Folding one key into the (cursor, activation count) pair. -/
def konamiAcc (p : Nat × Nat) (k : String) : Nat × Nat :=
  ((konamiStep p.1 k).1, p.2 + (if (konamiStep p.1 k).2 then 1 else 0))

/-- Feeding a whole key list to the konami watcher: the final progress
cursor and the number of activations. -/
def konamiRun (i : Nat) (keys : List String) : Nat × Nat :=
  keys.foldl konamiAcc (i, 0)

/-- n back-to-back copies of the konami sequence. -/
def repeatKonami : Nat → List String
  | 0 => []
  | n + 1 => konamiCode ++ repeatKonami n

/-- Modelled from the spec: the whitespace reading of the dispatch contract,
splitting the line on whitespace into words and dropping the empty pieces.
Used only to compare the specified splitting with the implemented one. -/
def wsWords (l : List Char) : List (List Char) :=
  (splitBy Char.isWhitespace l).filter (fun w => decide (w ≠ []))

/-- Modelled from the spec: the token list under whitespace splitting. -/
def wsTokens (input : String) : List String :=
  (wsWords (normChars input.data)).map List.asString

/-- Modelled from the spec: executeCommand as the spec words it, identical
to the implementation except that the normalised line is split on
whitespace instead of at single space characters. -/
def executeCommandWhitespaceSplit (st : TermState) (input : String) : TermState × String :=
  dispatchTokens st (wsTokens input)

/-- Interleaving single spaces between words, to build well-formed command
lines for the agreement theorems. -/
def joinsep : List (List Char) → List Char
  | [] => []
  | [w] => w
  | w :: ws => w ++ ' ' :: joinsep ws

/-- A concrete page state as the markup builds it: five sections with home
active, five matching nav links, a boot line in the output container. -/
def initState : TermState :=
  { currentSection := "home"
    commandHistory := []
    historyIndex := -1
    sections := [("home", true), ("about", false), ("projects", false),
                 ("blog", false), ("contact", false)]
    navLinks := [("#home", true), ("#about", false), ("#projects", false),
                 ("#blog", false), ("#contact", false)]
    transcript := [{ kind := LineKind.boot, text := "SYSTEM READY" }]
    inputValue := ""
    matrixDisplay := ""
    themeVars := themeDefault
    scheduledOutputs := [] }

/-! ### Character and trimming lemmas -/

/-- Char.ofNat applied to a valid code point converts back to it. -/
theorem charToNat_ofNat_valid (n : Nat) (h : n.isValidChar) : (Char.ofNat n).toNat = n := by
  simp only [Char.ofNat, dif_pos h, Char.ofNatAux, Char.toNat]
  rfl

/-- The code of the lower-cased form of an upper-case letter. -/
theorem toLower_toNat (c : Char) (h : 65 ≤ c.toNat ∧ c.toNat ≤ 90) :
    (Char.toLower c).toNat = c.toNat + 32 := by
  have hv : (c.toNat + 32).isValidChar := by
    left; omega
  simp only [Char.toLower, if_pos h]
  exact charToNat_ofNat_valid _ hv

/-- No character at or beyond code 65 is whitespace. -/
theorem not_whitespace_of_ge (c : Char) (h : 65 ≤ c.toNat) : c.isWhitespace = false := by
  simp only [Char.isWhitespace, Bool.or_eq_false_iff, decide_eq_false_iff_not]
  refine ⟨⟨⟨?_, ?_⟩, ?_⟩, ?_⟩ <;> (rintro rfl; revert h; decide)

/-- Lower-casing a character does not change whether it is whitespace. -/
theorem toLower_isWhitespace (c : Char) : (Char.toLower c).isWhitespace = c.isWhitespace := by
  by_cases h : 65 ≤ c.toNat ∧ c.toNat ≤ 90
  · have h1 : (Char.toLower c).toNat = c.toNat + 32 := toLower_toNat c h
    rw [not_whitespace_of_ge c h.1, not_whitespace_of_ge]
    omega
  · simp only [Char.toLower, if_neg h]

/-- ASCII lower-casing is idempotent. -/
theorem toLower_idem (c : Char) : Char.toLower (Char.toLower c) = Char.toLower c := by
  by_cases h : 65 ≤ c.toNat ∧ c.toNat ≤ 90
  · have h1 : (Char.toLower c).toNat = c.toNat + 32 := toLower_toNat c h
    have h2 : ¬ (65 ≤ (Char.toLower c).toNat ∧ (Char.toLower c).toNat ≤ 90) := by omega
    conv_lhs => rw [Char.toLower]
    simp only [if_neg h2]
  · have heq : Char.toLower c = c := by simp only [Char.toLower, if_neg h]
    rw [heq, heq]

/-- Dropping a satisfied prefix twice is the same as dropping it once. -/
theorem dropWhile_idem (p : Char → Bool) (l : List Char) :
    List.dropWhile p (List.dropWhile p l) = List.dropWhile p l := by
  induction l with
  | nil => rfl
  | cons a t ih => by_cases h : p a <;> simp [List.dropWhile_cons, h, ih]

/-- A list already trimmed on the left stays trimmed on the left after the
right end is trimmed as well. -/
theorem dropWhile_reverse_dropWhile (p : Char → Bool) (l : List Char)
    (h : List.dropWhile p l = l) :
    List.dropWhile p ((l.reverse.dropWhile p).reverse) = (l.reverse.dropWhile p).reverse := by
  rcases hc : (l.reverse.dropWhile p).reverse with _ | ⟨a, t⟩
  · rfl
  · have hsuf : l.reverse.dropWhile p <:+ l.reverse := List.dropWhile_suffix _
    obtain ⟨pre, hpre⟩ := hsuf
    have hl : l = (a :: t) ++ pre.reverse := by
      have := congrArg List.reverse hpre
      simpa [hc] using this.symm
    have hpa : p a = false := by
      by_contra hpa
      rw [Bool.not_eq_false] at hpa
      have hlen : (List.dropWhile p l).length ≤ t.length + pre.reverse.length := by
        have hstep : List.dropWhile p l = List.dropWhile p (t ++ pre.reverse) := by
          rw [hl]; simp [List.dropWhile_cons, hpa]
        rw [hstep]
        have hsuf2 : List.dropWhile p (t ++ pre.reverse) <:+ (t ++ pre.reverse) :=
          List.dropWhile_suffix _
        simpa using hsuf2.length_le
      rw [h, hl] at hlen
      simp at hlen
    simp [List.dropWhile_cons, hpa]

/-- Trimming is idempotent. -/
theorem jsTrimList_idem (l : List Char) : jsTrimList (jsTrimList l) = jsTrimList l := by
  unfold jsTrimList
  set p := Char.isWhitespace
  set M := List.dropWhile p l with hM
  have h1 : List.dropWhile p M = M := by rw [hM]; exact dropWhile_idem p l
  have h2 : List.dropWhile p ((M.reverse.dropWhile p).reverse) = (M.reverse.dropWhile p).reverse :=
    dropWhile_reverse_dropWhile p M h1
  rw [h2, List.reverse_reverse, dropWhile_idem]

/-- Trimming commutes with character-wise lower-casing. -/
theorem jsTrimList_map_toLower (l : List Char) :
    jsTrimList (l.map Char.toLower) = (jsTrimList l).map Char.toLower := by
  have hp : (Char.isWhitespace ∘ Char.toLower) = Char.isWhitespace := by
    funext c
    exact toLower_isWhitespace c
  unfold jsTrimList
  rw [List.dropWhile_map, hp, ← List.map_reverse, List.dropWhile_map, hp, ← List.map_reverse]

/-- The normalisation input.trim().toLowerCase() is idempotent. -/
theorem normChars_idem (l : List Char) : normChars (normChars l) = normChars l := by
  unfold normChars
  rw [jsTrimList_map_toLower, jsTrimList_idem, List.map_map]
  have hf : (Char.toLower ∘ Char.toLower) = Char.toLower := by
    funext c
    exact toLower_idem c
  rw [hf]

/-! ### Splitting lemmas -/

/-- The one-step unfolding of splitBy on a cons cell. -/
theorem splitBy_cons (p : Char → Bool) (c : Char) (cs : List Char) :
    splitBy p (c :: cs) =
      if p c then [] :: splitBy p cs
      else
        match splitBy p cs with
        | [] => [[c]]
        | w :: ws => (c :: w) :: ws := rfl

/-- Splitting never produces the empty list of pieces. -/
theorem splitBy_ne_nil (p : Char → Bool) (l : List Char) : splitBy p l ≠ [] := by
  cases l with
  | nil => simp [splitBy]
  | cons c cs =>
    rw [splitBy_cons]
    by_cases h : p c
    · simp [h]
    · simp only [h, Bool.false_eq_true, if_false]
      rcases splitBy p cs with _ | ⟨w, ws⟩ <;> simp

/-- A list without separator characters is a single piece. -/
theorem splitBy_all_neg (p : Char → Bool) (l : List Char) (h : ∀ c ∈ l, p c = false) :
    splitBy p l = [l] := by
  induction l with
  | nil => rfl
  | cons c cs ih =>
    have hc : p c = false := h c (List.mem_cons_self c cs)
    have hrest : splitBy p cs = [cs] := ih (fun d hd => h d (List.mem_cons_of_mem c hd))
    rw [splitBy_cons, hc]
    simp [hrest]

/-- Splitting after a separator-free piece and one separator peels off that
piece. -/
theorem splitBy_append_sep (p : Char → Bool) (w rest : List Char) (s : Char)
    (hw : ∀ c ∈ w, p c = false) (hs : p s = true) :
    splitBy p (w ++ s :: rest) = w :: splitBy p rest := by
  induction w with
  | nil => simp [List.nil_append, splitBy_cons, hs]
  | cons c w' ih =>
    have hc : p c = false := hw c (List.mem_cons_self c w')
    have hrest : splitBy p (w' ++ s :: rest) = w' :: splitBy p rest :=
      ih (fun d hd => hw d (List.mem_cons_of_mem c hd))
    rw [List.cons_append, splitBy_cons, hc]
    simp [hrest]

/-- joinsep on a list with at least two words. -/
theorem joinsep_cons₂ (w w2 : List Char) (ws : List (List Char)) :
    joinsep (w :: w2 :: ws) = w ++ ' ' :: joinsep (w2 :: ws) := rfl

/-- joinsep of non-empty words is non-empty. -/
theorem joinsep_ne_nil (ws : List (List Char)) (h1 : ws ≠ [])
    (h2 : ∀ w ∈ ws, w ≠ []) : joinsep ws ≠ [] := by
  match ws with
  | [] => exact absurd rfl h1
  | [w] => exact h2 w (List.mem_cons_self w [])
  | w :: w2 :: rest =>
    rw [joinsep_cons₂]
    have := h2 w (List.mem_cons_self w _)
    rcases w with _ | ⟨a, t⟩
    · simp
    · simp

/-- Splitting undoes joinsep when no word contains a separator. -/
theorem splitBy_joinsep (p : Char → Bool) (ws : List (List Char)) (h1 : ws ≠ [])
    (hw : ∀ w ∈ ws, ∀ c ∈ w, p c = false) (hsp : p ' ' = true) :
    splitBy p (joinsep ws) = ws := by
  match ws with
  | [] => exact absurd rfl h1
  | [w] =>
    exact splitBy_all_neg p w (hw w (List.mem_cons_self w []))
  | w :: w2 :: rest =>
    rw [joinsep_cons₂,
      splitBy_append_sep p w (joinsep (w2 :: rest)) ' ' (hw w (List.mem_cons_self w _)) hsp,
      splitBy_joinsep p (w2 :: rest) (by simp)
        (fun v hv c hc => hw v (List.mem_cons_of_mem w hv) c hc) hsp]

/-- The first character of joinsep is the first character of the first
word. -/
theorem joinsep_head? (ws : List (List Char)) (a : Char) (w' : List Char)
    (h : ws.head? = some (a :: w')) : (joinsep ws).head? = some a := by
  match ws with
  | [] => simp at h
  | [w] =>
    simp only [List.head?_cons, Option.some_inj] at h
    rw [show joinsep [w] = w from rfl, h]
    rfl
  | w :: w2 :: rest =>
    simp only [List.head?_cons, Option.some_inj] at h
    rw [joinsep_cons₂, h]
    rfl

/-- The last character of joinsep comes from one of the words. -/
theorem joinsep_getLast?_mem (ws : List (List Char)) (h2 : ∀ w ∈ ws, w ≠ [])
    (c : Char) (h : (joinsep ws).getLast? = some c) : ∃ w ∈ ws, c ∈ w := by
  match ws with
  | [] => simp [joinsep] at h
  | [w] =>
    exact ⟨w, List.mem_cons_self w [], List.mem_of_mem_getLast? h⟩
  | w :: w2 :: rest =>
    rw [joinsep_cons₂, List.getLast?_append] at h
    have hne : joinsep (w2 :: rest) ≠ [] :=
      joinsep_ne_nil (w2 :: rest) (by simp)
        (fun v hv => h2 v (List.mem_cons_of_mem w hv))
    have hsome : (' ' :: joinsep (w2 :: rest)).getLast? = (joinsep (w2 :: rest)).getLast? := by
      rw [show (' ' :: joinsep (w2 :: rest)) = [' '] ++ joinsep (w2 :: rest) from rfl,
        List.getLast?_append]
      rcases ho : (joinsep (w2 :: rest)).getLast? with _ | d
      · exact absurd (List.getLast?_eq_none_iff.mp ho) hne
      · simp
    rw [hsome] at h
    rcases ho : (joinsep (w2 :: rest)).getLast? with _ | d
    · exact absurd (List.getLast?_eq_none_iff.mp ho) hne
    · rw [ho] at h
      simp only [Option.or] at h
      obtain rfl : d = c := Option.some.inj h
      obtain ⟨v, hv, hcv⟩ := joinsep_getLast?_mem (w2 :: rest)
        (fun v hv => h2 v (List.mem_cons_of_mem w hv)) d ho
      exact ⟨v, List.mem_cons_of_mem w hv, hcv⟩

/-! ### Normalisation of well-formed command lines -/

/-- Trimming does nothing when both ends are not whitespace. -/
theorem jsTrimList_eq_self (l : List Char)
    (hh : ∀ c, l.head? = some c → c.isWhitespace = false)
    (hl : ∀ c, l.getLast? = some c → c.isWhitespace = false) :
    jsTrimList l = l := by
  have h1 : l.dropWhile Char.isWhitespace = l := by
    cases l with
    | nil => rfl
    | cons a t => simp [List.dropWhile_cons, hh a rfl]
  have h2 : l.reverse.dropWhile Char.isWhitespace = l.reverse := by
    cases hr : l.reverse with
    | nil => rfl
    | cons a t =>
      have ha : l.getLast? = some a := by
        rw [← List.head?_reverse, hr]
        rfl
      simp [List.dropWhile_cons, hl a ha]
  unfold jsTrimList
  rw [h1, h2, List.reverse_reverse]

/-- Lower-casing a line distributes over the words it is built from,
because the space separator is fixed by lower-casing. -/
theorem map_toLower_joinsep (ws : List (List Char)) :
    (joinsep ws).map Char.toLower = joinsep (ws.map (List.map Char.toLower)) := by
  match ws with
  | [] => rfl
  | [w] => rfl
  | w :: w2 :: rest =>
    rw [joinsep_cons₂, List.map_append, List.map_cons,
      show Char.toLower ' ' = ' ' from by decide,
      map_toLower_joinsep (w2 :: rest)]
    simp only [List.map_cons, joinsep_cons₂]

/-- On a line of non-empty whitespace-free words joined by single spaces,
normalisation only lower-cases the words. -/
theorem normChars_joinsep (ws : List (List Char)) (h1 : ws ≠ [])
    (h2 : ∀ w ∈ ws, w ≠ []) (h3 : ∀ w ∈ ws, ∀ c ∈ w, c.isWhitespace = false) :
    normChars (joinsep ws) = joinsep (ws.map (List.map Char.toLower)) := by
  unfold normChars
  have htrim : jsTrimList (joinsep ws) = joinsep ws := by
    apply jsTrimList_eq_self
    · intro c hc
      rcases ws with _ | ⟨w, rest⟩
      · exact absurd rfl h1
      · rcases hw : w with _ | ⟨a, w'⟩
        · exact absurd hw (h2 w (List.mem_cons_self w rest))
        · have hh : (joinsep (w :: rest)).head? = some a :=
            joinsep_head? (w :: rest) a w' (by rw [List.head?_cons, hw])
          rw [hh] at hc
          obtain rfl := Option.some.inj hc
          exact h3 w (List.mem_cons_self w rest) a (by rw [hw]; exact List.mem_cons_self a w')
    · intro c hc
      obtain ⟨w, hwmem, hcw⟩ := joinsep_getLast?_mem ws h2 c hc
      exact h3 w hwmem c hcw
  rw [htrim, map_toLower_joinsep]

/-- The implemented tokenisation of a line of non-empty whitespace-free
words joined by single spaces: the lower-cased words. -/
theorem tokens_eq_of_data (input : String) (ws : List (List Char))
    (hd : input.data = joinsep ws) (h1 : ws ≠ [])
    (h2 : ∀ w ∈ ws, w ≠ []) (h3 : ∀ w ∈ ws, ∀ c ∈ w, c.isWhitespace = false) :
    tokens input = (ws.map (List.map Char.toLower)).map List.asString := by
  unfold tokens
  rw [hd, normChars_joinsep ws h1 h2 h3,
    splitBy_joinsep (fun c => c == ' ') (ws.map (List.map Char.toLower))
      (by simpa using h1)
      (by
        intro w' hw' c hc
        obtain ⟨w, hwmem, rfl⟩ := List.mem_map.mp hw'
        obtain ⟨c0, hc0, rfl⟩ := List.mem_map.mp hc
        have hws : (Char.toLower c0).isWhitespace = false := by
          rw [toLower_isWhitespace]
          exact h3 w hwmem c0 hc0
        have hne : Char.toLower c0 ≠ ' ' := by
          intro he
          rw [he] at hws
          exact absurd hws (by decide)
        simp [hne])
      rfl]

/-- The whitespace tokenisation of the same well-formed line gives the same
words. -/
theorem wsTokens_eq_of_data (input : String) (ws : List (List Char))
    (hd : input.data = joinsep ws) (h1 : ws ≠ [])
    (h2 : ∀ w ∈ ws, w ≠ []) (h3 : ∀ w ∈ ws, ∀ c ∈ w, c.isWhitespace = false) :
    wsTokens input = (ws.map (List.map Char.toLower)).map List.asString := by
  unfold wsTokens wsWords
  rw [hd, normChars_joinsep ws h1 h2 h3,
    splitBy_joinsep Char.isWhitespace (ws.map (List.map Char.toLower))
      (by simpa using h1)
      (by
        intro w' hw' c hc
        obtain ⟨w, hwmem, rfl⟩ := List.mem_map.mp hw'
        obtain ⟨c0, hc0, rfl⟩ := List.mem_map.mp hc
        rw [toLower_isWhitespace]
        exact h3 w hwmem c0 hc0)
      rfl,
    List.filter_eq_self.mpr
      (by
        intro w' hw'
        obtain ⟨w, hwmem, rfl⟩ := List.mem_map.mp hw'
        have : w.map Char.toLower ≠ [] := by simpa using h2 w hwmem
        exact decide_eq_true this)]

/-! ### Navigation lemmas -/

/-- Removing the active class does not change the identifiers. -/
theorem map_fst_deactivateAll (l : List (String × Bool)) :
    (deactivateAll l).map Prod.fst = l.map Prod.fst := by
  unfold deactivateAll
  rw [List.map_map]
  rfl

/-- After removing the active class no entry is active. -/
theorem filter_deactivateAll (l : List (String × Bool)) :
    (deactivateAll l).filter (fun s => s.2) = [] := by
  rw [List.filter_eq_nil_iff]
  intro x hx
  obtain ⟨y, _, rfl⟩ := List.mem_map.mp hx
  simp

/-- Activating the first entry with a present identifier in an all-inactive
list leaves exactly that one entry active. -/
theorem filter_setActiveFirst (l : List (String × Bool)) (id : String)
    (hall : ∀ x ∈ l, x.2 = false) (hmem : id ∈ l.map Prod.fst) :
    (setActiveFirst l id).filter (fun s => s.2) = [(id, true)] := by
  induction l with
  | nil => simp at hmem
  | cons a t ih =>
    by_cases ha : a.1 = id
    · unfold setActiveFirst
      rw [if_pos ha]
      have hrest : t.filter (fun s => s.2) = [] := by
        rw [List.filter_eq_nil_iff]
        intro x hx
        simp [hall x (List.mem_cons_of_mem a hx)]
      simp [List.filter_cons, hrest, ha]
    · unfold setActiveFirst
      rw [if_neg ha]
      have hfa : a.2 = false := hall a (List.mem_cons_self a t)
      have hmem' : id ∈ t.map Prod.fst := by
        rw [List.map_cons] at hmem
        rcases List.mem_cons.mp hmem with h | h
        · exact absurd h.symm ha
        · exact h
      rw [List.filter_cons, hfa]
      simp only [Bool.false_eq_true, if_false]
      exact ih (fun x hx => hall x (List.mem_cons_of_mem a hx)) hmem'

/-- Rebuilding the highlighting marks exactly the one link whose href
occurs once. -/
theorem filter_highlight (l : List (String × Bool)) (t : String)
    (hc : (l.map Prod.fst).count t = 1) :
    (l.map (fun x => (x.1, x.1 == t))).filter (fun s => s.2) = [(t, true)] := by
  induction l with
  | nil => simp at hc
  | cons a r ih =>
    rw [List.map_cons, List.count_cons] at hc
    by_cases ha : a.1 = t
    · have hzero : (r.map Prod.fst).count t = 0 := by
        rw [if_pos (by simp [ha])] at hc
        omega
      have hrest : (r.map (fun x => (x.1, x.1 == t))).filter (fun s => s.2) = [] := by
        rw [List.filter_eq_nil_iff]
        intro x hx
        obtain ⟨y, hy, rfl⟩ := List.mem_map.mp hx
        have hyt : y.1 ≠ t := by
          intro he
          have hmem : t ∈ r.map Prod.fst := List.mem_map.mpr ⟨y, hy, he⟩
          exact absurd hmem (List.count_eq_zero.mp hzero)
        simp [hyt]
      rw [List.map_cons, List.filter_cons]
      simp [ha, hrest]
    · rw [if_neg (by simp [ha])] at hc
      rw [List.map_cons, List.filter_cons]
      simp only [ha, beq_iff_eq, if_false]
      simpa [ha] using ih (by omega)

/-! ### Dispatch preserves the session history -/

/-- Navigation does not touch the command history. -/
theorem navigateToSection_commandHistory (st : TermState) (id : String) :
    (navigateToSection st id).commandHistory = st.commandHistory := by
  by_cases h : id ∈ (deactivateAll st.sections).map Prod.fst <;>
    simp [navigateToSection, h]

/-- Navigation does not touch the history cursor. -/
theorem navigateToSection_historyIndex (st : TermState) (id : String) :
    (navigateToSection st id).historyIndex = st.historyIndex := by
  by_cases h : id ∈ (deactivateAll st.sections).map Prod.fst <;>
    simp [navigateToSection, h]

/-- No registered handler touches the command history or the history
cursor. -/
theorem handler_preserves_history (cmd : String)
    (f : TermState → List String → TermState × String)
    (hf : lookupCommand cmd = some f) (st : TermState) (args : List String) :
    (f st args).1.commandHistory = st.commandHistory ∧
    (f st args).1.historyIndex = st.historyIndex := by
  have hcd : (cmdCd st args).1.commandHistory = st.commandHistory ∧
      (cmdCd st args).1.historyIndex = st.historyIndex := by
    unfold cmdCd
    cases args.head? with
    | none => exact ⟨rfl, rfl⟩
    | some sec =>
      by_cases hs : sec ∈ validSections
      · simp only [if_pos hs]
        exact ⟨navigateToSection_commandHistory st sec, navigateToSection_historyIndex st sec⟩
      · simp only [if_neg hs]
        trivial
  unfold lookupCommand at hf
  split at hf <;> cases hf <;> first | exact ⟨rfl, rfl⟩ | exact hcd

/-- Dispatch on a token list never touches the command history or the
history cursor. -/
theorem dispatchTokens_preserves_history (st : TermState) (ts : List String) :
    (dispatchTokens st ts).1.commandHistory = st.commandHistory ∧
    (dispatchTokens st ts).1.historyIndex = st.historyIndex := by
  unfold dispatchTokens
  rcases hf : lookupCommand (ts.headD "") with _ | f
  · simp only [hf]
    trivial
  · simp only [hf]
    exact handler_preserves_history _ f hf st _

/-- Dispatch never touches the command history or the history cursor. -/
theorem executeCommand_preserves_history (st : TermState) (input : String) :
    (executeCommand st input).1.commandHistory = st.commandHistory ∧
    (executeCommand st input).1.historyIndex = st.historyIndex := by
  unfold executeCommand
  exact dispatchTokens_preserves_history st (tokens input)

/-! ### The claims -/

/-- The page just before the failing Enter press of claim C1: one boot line,
one previously appended command-output line, and the text clear typed into
the input field. -/
def clearScenario : TermState :=
  { initState with
    transcript := [{ kind := LineKind.boot, text := "SYSTEM READY" },
                   { kind := LineKind.commandOutput, text := "hello" }]
    inputValue := "clear" }

/-- Claim C1: after pressing Enter on the input clear the transcript is
claimed to consist of exactly the boot-sequence lines.  Evaluating the code
at this state shows the bug: the boot line is kept and the old output line
removed, but handleTerminalInput calls displayOutput unconditionally even
for the empty return of clear, so one fresh empty terminal-output-line is
appended and the transcript is not just the boot lines. -/
theorem clear_appends_blank_line :
    (handleTerminalInput clearScenario "Enter").transcript =
      [{ kind := LineKind.boot, text := "SYSTEM READY" },
       { kind := LineKind.commandOutput, text := "" }] ∧
    (handleTerminalInput clearScenario "Enter").transcript ≠
      [{ kind := LineKind.boot, text := "SYSTEM READY" }] := by
  decide

/-- Claim C2 counterexample: for the identifier nope, which matches no
section, the call is not a no-op: the home section loses its active marker,
so the set of sections bearing the active marker changes from home alone to
none at all. -/
theorem navigateToSection_missing_not_noop :
    ("nope" ∉ initState.sections.map Prod.fst) ∧
    initState.sections.filter (fun s => s.2) = [("home", true)] ∧
    (navigateToSection initState "nope").sections.filter (fun s => s.2) = [] ∧
    (navigateToSection initState "nope").sections ≠ initState.sections := by
  decide

/-- Claim C2 (amended): for a section identifier with no matching DOM
section, navigateToSection leaves currentSection, the nav-link highlighting
and every other field unchanged, but it does strip the active marker from
every section, because the removal loop runs before the existence check. -/
theorem navigateToSection_missing_deactivates (st : TermState) (id : String)
    (h : id ∉ st.sections.map Prod.fst) :
    navigateToSection st id = { st with sections := deactivateAll st.sections } := by
  have h' : id ∉ (deactivateAll st.sections).map Prod.fst := by
    rw [map_fst_deactivateAll]
    exact h
  simp [navigateToSection, h']

/-- Witness for claim C2 at the identifier nope on the concrete page
state. -/
theorem navigateToSection_missing_deactivates_witness :
    ("nope" ∉ initState.sections.map Prod.fst) ∧
    navigateToSection initState "nope" =
      { initState with sections := deactivateAll initState.sections } :=
  ⟨by decide, navigateToSection_missing_deactivates initState "nope" (by decide)⟩

/-- Away from the two inherited property names the full model reduces to
executeCommand, so the simpler function is the faithful dispatch on every
other line. -/
theorem executeCommandJs_agrees (st : TermState) (input : String)
    (h1 : (tokens input).headD "" ≠ "constructor")
    (h2 : (tokens input).headD "" ≠ "__proto__") :
    executeCommandJs st input =
      Except.ok ((executeCommand st input).1, JsValue.str (executeCommand st input).2) := by
  unfold executeCommandJs executeCommand dispatchTokens commandProperty
  rcases hf : lookupCommand ((tokens input).headD "") with _ | f
  · simp only [hf]
    rw [if_neg h1, if_neg h2]
  · simp only [hf]

/-- Claim C3: the claim says dispatch never throws and that every command
word outside the Command Registry yields the fixed not-found message.  The
code breaks both at the two property names reachable through the prototype
chain of the commands object literal: the proto word makes the truthiness
guard pass on the non-callable Object.prototype, so the invocation throws a
TypeError, and the word constructor invokes the inherited Object
constructor, which returns the argument array instead of the message.
Both words are outside the registry, and a genuinely absent word such as
foo still gets the message, as claimed. -/
theorem executeCommand_prototype_chain_bug :
    lookupCommand "__proto__" = none ∧
    executeCommandJs initState "__proto__" =
      Except.error "TypeError: commands[cmd] is not a function" ∧
    lookupCommand "constructor" = none ∧
    executeCommandJs initState "constructor" = Except.ok (initState, JsValue.array []) ∧
    JsValue.array [] ≠ JsValue.str (notFoundMsg "constructor") ∧
    executeCommandJs initState "foo" =
      Except.ok (initState, JsValue.str (notFoundMsg "foo")) := by
  refine ⟨rfl, rfl, rfl, rfl, ?_, rfl⟩
  intro h
  cases h

/-- Claim C5: navigating to an identifier that has a matching section, whose
href occurs on exactly one nav link, records it as currentSection, leaves
exactly that one section active and exactly that one nav link
highlighted. -/
theorem navigateToSection_valid_exclusive (st : TermState) (id : String)
    (hsec : id ∈ st.sections.map Prod.fst)
    (hnav : (st.navLinks.map Prod.fst).count ("#" ++ id) = 1) :
    (navigateToSection st id).currentSection = id ∧
    (navigateToSection st id).sections.filter (fun s => s.2) = [(id, true)] ∧
    (navigateToSection st id).navLinks.filter (fun s => s.2) = [("#" ++ id, true)] := by
  have h' : id ∈ (deactivateAll st.sections).map Prod.fst := by
    rw [map_fst_deactivateAll]
    exact hsec
  have hall : ∀ x ∈ deactivateAll st.sections, x.2 = false := by
    intro x hx
    obtain ⟨y, _, rfl⟩ := List.mem_map.mp hx
    rfl
  unfold navigateToSection
  rw [if_pos h']
  exact ⟨rfl, filter_setActiveFirst _ id hall h', filter_highlight st.navLinks ("#" ++ id) hnav⟩

/-- Witness for claim C5 at the identifier about on the concrete page
state. -/
theorem navigateToSection_valid_exclusive_witness :
    ("about" ∈ initState.sections.map Prod.fst) ∧
    (initState.navLinks.map Prod.fst).count ("#" ++ "about") = 1 ∧
    ((navigateToSection initState "about").currentSection = "about" ∧
     (navigateToSection initState "about").sections.filter (fun s => s.2) = [("about", true)] ∧
     (navigateToSection initState "about").navLinks.filter (fun s => s.2) =
       [("#" ++ "about", true)]) :=
  ⟨by decide, by decide,
    navigateToSection_valid_exclusive initState "about" (by decide) (by decide)⟩

/-- Claim C4 counterexample: the line cd-space-space-about, with two spaces,
distinguishes the implemented split at single space characters from the
claimed split on whitespace: the implementation passes the empty string as
first argument and fails, while the whitespace reading navigates. -/
theorem executeCommand_space_split_counterexample :
    (executeCommand initState "cd  about").2 = "Error: : No such directory" ∧
    (executeCommandWhitespaceSplit initState "cd  about").2 = "Navigating to about..." ∧
    (executeCommand initState "cd  about").2 ≠ (executeCommandWhitespaceSplit initState "cd  about").2 ∧
    (executeCommand initState "cd  about").1.currentSection = "home" ∧
    (executeCommandWhitespaceSplit initState "cd  about").1.currentSection = "about" := by
  decide

/-- Claim C4 (amended): executeCommand splits the trimmed, lower-cased line
at single space characters, not on general whitespace; on lines whose
non-empty, whitespace-free words are separated by single spaces the two
readings agree, the first word being the command looked up case-insensitively
and the rest the arguments. -/
theorem executeCommand_single_space_split (st : TermState) (ws : List (List Char))
    (h1 : ws ≠ []) (h2 : ∀ w ∈ ws, w ≠ [])
    (h3 : ∀ w ∈ ws, ∀ c ∈ w, c.isWhitespace = false) :
    executeCommand st ⟨joinsep ws⟩ = executeCommandWhitespaceSplit st ⟨joinsep ws⟩ := by
  unfold executeCommand executeCommandWhitespaceSplit
  rw [tokens_eq_of_data ⟨joinsep ws⟩ ws rfl h1 h2 h3,
    wsTokens_eq_of_data ⟨joinsep ws⟩ ws rfl h1 h2 h3]

/-- Witness for claim C4 on the two-word line cd about. -/
theorem executeCommand_single_space_split_witness :
    ([['c', 'd'], ['a', 'b', 'o', 'u', 't']] : List (List Char)) ≠ [] ∧
    (∀ w ∈ ([['c', 'd'], ['a', 'b', 'o', 'u', 't']] : List (List Char)), w ≠ []) ∧
    (∀ w ∈ ([['c', 'd'], ['a', 'b', 'o', 'u', 't']] : List (List Char)),
      ∀ c ∈ w, c.isWhitespace = false) ∧
    executeCommand initState ⟨joinsep [['c', 'd'], ['a', 'b', 'o', 'u', 't']]⟩ =
      executeCommandWhitespaceSplit initState ⟨joinsep [['c', 'd'], ['a', 'b', 'o', 'u', 't']]⟩ :=
  ⟨by decide, by decide, by decide,
    executeCommand_single_space_split initState [['c', 'd'], ['a', 'b', 'o', 'u', 't']]
      (by decide) (by decide) (by decide)⟩

/-- Claim C6: cd about navigates to the about section and returns a string
containing about; and for every single whitespace-free argument whose
lower-cased form is not one of the five section names, cd returns a string
containing No such directory and leaves the whole state, in particular
currentSection, unchanged. -/
theorem cd_navigation :
    ((executeCommand initState "cd about").1.currentSection = "about" ∧
     "about".data <:+: (executeCommand initState "cd about").2.data) ∧
    (∀ (st : TermState) (arg : String), arg.data ≠ [] →
      (∀ c ∈ arg.data, c.isWhitespace = false) →
      List.asString (arg.data.map Char.toLower) ∉ validSections →
      executeCommand st ("cd " ++ arg) =
        (st, "Error: " ++ List.asString (arg.data.map Char.toLower) ++ ": No such directory") ∧
      "No such directory".data <:+: (executeCommand st ("cd " ++ arg)).2.data) := by
  constructor
  · exact ⟨by decide, by decide⟩
  · intro st arg hne hws hnot
    have hdata : ("cd " ++ arg).data = joinsep [['c', 'd'], arg.data] := by
      rw [String.data_append]
      rfl
    have htok : tokens ("cd " ++ arg) =
        ["cd", List.asString (arg.data.map Char.toLower)] := by
      have ht := tokens_eq_of_data ("cd " ++ arg) [['c', 'd'], arg.data] hdata (by simp)
        (by
          intro w hw
          simp only [List.mem_cons, List.not_mem_nil, or_false] at hw
          rcases hw with rfl | rfl
          · simp
          · exact hne)
        (by
          intro w hw c hc
          simp only [List.mem_cons, List.not_mem_nil, or_false] at hw
          rcases hw with rfl | rfl
          · simp only [List.mem_cons, List.not_mem_nil, or_false] at hc
            rcases hc with rfl | rfl <;> decide
          · exact hws c hc)
      rw [ht]
      simp only [List.map_cons, List.map_nil]
      rw [show ['c'.toLower, 'd'.toLower].asString = "cd" from by decide]
    have heq : executeCommand st ("cd " ++ arg) =
        (st, "Error: " ++ List.asString (arg.data.map Char.toLower) ++ ": No such directory") := by
      unfold executeCommand dispatchTokens
      rw [htok]
      show cmdCd st [List.asString (arg.data.map Char.toLower)] = _
      unfold cmdCd
      simp only [List.head?_cons]
      rw [if_neg hnot]
    refine ⟨heq, ?_⟩
    rw [heq]
    refine ⟨"Error: ".data ++ (List.asString (arg.data.map Char.toLower)).data ++ [':', ' '], [], ?_⟩
    rw [String.data_append, String.data_append,
      show (": No such directory").data = [':', ' '] ++ "No such directory".data from by decide]
    simp [List.append_assoc]

/-- Witness for claim C6 at the argument nowhere. -/
theorem cd_navigation_witness :
    ("nowhere".data ≠ []) ∧
    (∀ c ∈ "nowhere".data, c.isWhitespace = false) ∧
    (List.asString ("nowhere".data.map Char.toLower) ∉ validSections) ∧
    (executeCommand initState ("cd " ++ "nowhere") =
      (initState,
        "Error: " ++ List.asString ("nowhere".data.map Char.toLower) ++ ": No such directory") ∧
     "No such directory".data <:+: (executeCommand initState ("cd " ++ "nowhere")).2.data) :=
  ⟨by decide, by decide, by decide,
    cd_navigation.2 initState "nowhere" (by decide) (by decide) (by decide)⟩

/-- The page after the commands a, b, c have been entered in order. -/
def abcState : TermState :=
  runEvents initState
    [TermEvent.setInput "a", TermEvent.key "Enter",
     TermEvent.setInput "b", TermEvent.key "Enter",
     TermEvent.setInput "c", TermEvent.key "Enter"]

/-- The states reached by the successive arrow presses of claim C7. -/
def up1 : TermState := handleTerminalInput abcState "ArrowUp"

/-- Second ArrowUp. -/
def up2 : TermState := handleTerminalInput up1 "ArrowUp"

/-- Third ArrowUp. -/
def up3 : TermState := handleTerminalInput up2 "ArrowUp"

/-- Fourth ArrowUp. -/
def up4 : TermState := handleTerminalInput up3 "ArrowUp"

/-- First ArrowDown after the ArrowUp presses. -/
def down1 : TermState := handleTerminalInput up4 "ArrowDown"

/-- Second ArrowDown. -/
def down2 : TermState := handleTerminalInput down1 "ArrowDown"

/-- Third ArrowDown. -/
def down3 : TermState := handleTerminalInput down2 "ArrowDown"

/-- Claim C7: after entering a, b, c, successive ArrowUp presses show c,
then b, then a, a fourth ArrowUp changes nothing at all, and ArrowDown
presses from there show b, then c, and then clear the field with the cursor
one past the end of the history. -/
theorem history_recall_abc :
    abcState.commandHistory = ["a", "b", "c"] ∧
    up1.inputValue = "c" ∧ up2.inputValue = "b" ∧ up3.inputValue = "a" ∧
    up4 = up3 ∧
    down1.inputValue = "b" ∧ down2.inputValue = "c" ∧
    down3.inputValue = "" ∧ down3.historyIndex = (down3.commandHistory.length : Int) := by
  decide

/-- The cursor invariant of the session state: the history cursor is either
the never-set initial value or lies between 0 and the history length. -/
abbrev histInv (st : TermState) : Prop :=
  st.historyIndex = -1 ∨
    (0 ≤ st.historyIndex ∧ st.historyIndex ≤ (st.commandHistory.length : Int))

/-- Committing an input appends exactly it to the history. -/
theorem enterCommit_commandHistory (st : TermState) (input : String) :
    (enterCommit st input).commandHistory = st.commandHistory ++ [input] := by
  show (executeCommand st input).1.commandHistory ++ [input] = st.commandHistory ++ [input]
  rw [(executeCommand_preserves_history st input).1]

/-- Committing an input sets the cursor one past the new end. -/
theorem enterCommit_historyIndex (st : TermState) (input : String) :
    (enterCommit st input).historyIndex = ((st.commandHistory.length + 1 : Nat) : Int) := by
  show (((executeCommand st input).1.commandHistory ++ [input]).length : Int) = _
  rw [(executeCommand_preserves_history st input).1]
  simp

/-- The Enter branch either leaves the state alone (blank input) or appends
exactly the trimmed input to the history and sets the cursor one past the
end. -/
theorem handleEnter_spec (st : TermState) :
    handleEnter st = st ∨
    ((handleEnter st).commandHistory =
        st.commandHistory ++ [(⟨jsTrimList st.inputValue.data⟩ : String)] ∧
      (handleEnter st).historyIndex = ((st.commandHistory.length + 1 : Nat) : Int)) := by
  by_cases hemp : (⟨jsTrimList st.inputValue.data⟩ : String) = ""
  · left
    show (if (⟨jsTrimList st.inputValue.data⟩ : String) = "" then st
      else enterCommit st ⟨jsTrimList st.inputValue.data⟩) = st
    rw [if_pos hemp]
  · right
    have he : handleEnter st = enterCommit st ⟨jsTrimList st.inputValue.data⟩ := by
      show (if (⟨jsTrimList st.inputValue.data⟩ : String) = "" then st
        else enterCommit st ⟨jsTrimList st.inputValue.data⟩) = _
      rw [if_neg hemp]
    rw [he, enterCommit_commandHistory, enterCommit_historyIndex]
    exact ⟨rfl, rfl⟩

/-- Claim C8: the command history is append-only and grows only on Enter,
the cursor invariant is preserved by every event, and the initial cursor
value is never re-entered once left. -/
theorem history_append_only_and_cursor_clamped (st : TermState) (ev : TermEvent)
    (h : histInv st) :
    ((stepEvent st ev).commandHistory = st.commandHistory ∨
      (∃ x, (stepEvent st ev).commandHistory = st.commandHistory ++ [x] ∧
        ev = TermEvent.key "Enter")) ∧
    histInv (stepEvent st ev) ∧
    ((stepEvent st ev).historyIndex = -1 → st.historyIndex = -1) := by
  cases ev with
  | setInput s => exact ⟨Or.inl rfl, h, fun hh => hh⟩
  | key k =>
    simp only [stepEvent]
    unfold handleTerminalInput
    by_cases hk1 : k = "Enter"
    · rw [if_pos hk1]
      rcases handleEnter_spec st with heq | ⟨hch, hhi⟩
      · rw [heq]
        exact ⟨Or.inl rfl, h, fun hh => hh⟩
      · refine ⟨Or.inr ⟨_, hch, by rw [hk1]⟩, Or.inr ⟨?_, ?_⟩, ?_⟩
        · rw [hhi]
          omega
        · rw [hhi, hch]
          simp
        · intro habs
          rw [hhi] at habs
          omega
    · rw [if_neg hk1]
      by_cases hk2 : k = "ArrowUp"
      · rw [if_pos hk2]
        unfold handleArrowUp
        by_cases h3 : st.historyIndex > 0
        · rw [if_pos h3]
          refine ⟨Or.inl rfl, ?_, ?_⟩
          · show st.historyIndex - 1 = -1 ∨
              (0 ≤ st.historyIndex - 1 ∧ st.historyIndex - 1 ≤ (st.commandHistory.length : Int))
            rcases h with h | h
            · omega
            · right
              omega
          · intro habs
            have habs' : st.historyIndex - 1 = -1 := habs
            omega
        · rw [if_neg h3]
          exact ⟨Or.inl rfl, h, fun hh => hh⟩
      · rw [if_neg hk2]
        by_cases hk3 : k = "ArrowDown"
        · rw [if_pos hk3]
          unfold handleArrowDown
          by_cases h5 : st.historyIndex < (st.commandHistory.length : Int) - 1
          · rw [if_pos h5]
            refine ⟨Or.inl rfl, ?_, ?_⟩
            · show st.historyIndex + 1 = -1 ∨
                (0 ≤ st.historyIndex + 1 ∧ st.historyIndex + 1 ≤ (st.commandHistory.length : Int))
              rcases h with h | h
              · right
                omega
              · right
                omega
            · intro habs
              have habs' : st.historyIndex + 1 = -1 := habs
              rcases h with h | h <;> omega
          · rw [if_neg h5]
            refine ⟨Or.inl rfl, Or.inr ⟨?_, ?_⟩, ?_⟩
            · show (0 : Int) ≤ (st.commandHistory.length : Int)
              omega
            · show (st.commandHistory.length : Int) ≤ (st.commandHistory.length : Int)
              omega
            · intro habs
              have habs' : (st.commandHistory.length : Int) = -1 := habs
              omega
        · rw [if_neg hk3]
          exact ⟨Or.inl rfl, h, fun hh => hh⟩

/-- Witness for claim C8: an ArrowDown event on the freshly loaded page. -/
theorem history_append_only_and_cursor_clamped_witness :
    histInv initState ∧
    (((stepEvent initState (TermEvent.key "ArrowDown")).commandHistory =
        initState.commandHistory ∨
      (∃ x, (stepEvent initState (TermEvent.key "ArrowDown")).commandHistory =
          initState.commandHistory ++ [x] ∧
        TermEvent.key "ArrowDown" = TermEvent.key "Enter")) ∧
     histInv (stepEvent initState (TermEvent.key "ArrowDown")) ∧
     ((stepEvent initState (TermEvent.key "ArrowDown")).historyIndex = -1 →
       initState.historyIndex = -1)) :=
  ⟨by decide,
    history_append_only_and_cursor_clamped initState (TermEvent.key "ArrowDown") (by decide)⟩

/-- Folding keys from an accumulated activation count only shifts the
count. -/
theorem konamiRun_shift (keys : List String) (i c : Nat) :
    keys.foldl konamiAcc (i, c) =
      ((keys.foldl konamiAcc (i, 0)).1, c + (keys.foldl konamiAcc (i, 0)).2) := by
  induction keys generalizing i c with
  | nil => simp
  | cons k ks ih =>
    rw [List.foldl_cons, List.foldl_cons,
      show konamiAcc (i, c) k =
        ((konamiStep i k).1, c + (if (konamiStep i k).2 then 1 else 0)) from rfl,
      show konamiAcc (i, 0) k =
        ((konamiStep i k).1, 0 + (if (konamiStep i k).2 then 1 else 0)) from rfl,
      ih, ih ((konamiStep i k).1) (0 + (if (konamiStep i k).2 then 1 else 0))]
    dsimp only
    simp only [Prod.mk.injEq]
    exact ⟨trivial, by omega⟩

/-- Splitting a key list splits the activation count. -/
theorem konamiRun_append (i : Nat) (l1 l2 : List String) :
    konamiRun i (l1 ++ l2) =
      ((konamiRun (konamiRun i l1).1 l2).1,
        (konamiRun i l1).2 + (konamiRun (konamiRun i l1).1 l2).2) := by
  unfold konamiRun
  rw [List.foldl_append]
  exact konamiRun_shift l2 (List.foldl konamiAcc (i, 0) l1).1 (List.foldl konamiAcc (i, 0) l1).2

/-- One whole konami sequence from a fresh cursor fires exactly once and
resets the cursor. -/
theorem konamiRun_code : konamiRun 0 konamiCode = (0, 1) := by decide

/-- Claim C9: feeding the exact ten-key sequence n times in order from a
fresh cursor fires the easter egg exactly n times, once per completed
sequence, ending with the cursor reset to zero; and any key that does not
match the next expected key resets the cursor without firing. -/
theorem konami_once_per_sequence :
    (∀ n : Nat, konamiRun 0 (repeatKonami n) = (0, n)) ∧
    (∀ (i : Nat) (k : String), k ≠ konamiCode.getD i "" → konamiStep i k = (0, false)) := by
  constructor
  · intro n
    induction n with
    | zero => rfl
    | succ m ih =>
      show konamiRun 0 (konamiCode ++ repeatKonami m) = (0, m + 1)
      rw [konamiRun_append, konamiRun_code]
      simp only []
      rw [ih]
      simp [Nat.add_comm]
  · intro i k hk
    unfold konamiStep
    rw [if_neg hk]

/-- Witness for claim C9: two complete sequences fire twice; the key x at
cursor 3 resets without firing. -/
theorem konami_once_per_sequence_witness :
    konamiRun 0 (repeatKonami 2) = (0, 2) ∧
    ("x" ≠ konamiCode.getD 3 "") ∧
    konamiStep 3 "x" = (0, false) :=
  ⟨konami_once_per_sequence.1 2, by decide, konami_once_per_sequence.2 3 "x" (by decide)⟩

/-- Claim C10: dispatch depends on the input line only through its trimmed,
lower-cased form, so executeCommand behaves identically on a line and on
its normalised form; in particular CD ABOUT navigates exactly as cd about
does. -/
theorem executeCommand_normalisation_invariant :
    (∀ (st : TermState) (s : String),
      executeCommand st ⟨normChars s.data⟩ = executeCommand st s) ∧
    executeCommand initState "CD ABOUT" = executeCommand initState "cd about" := by
  constructor
  · intro st s
    unfold executeCommand tokens
    rw [show (⟨normChars s.data⟩ : String).data = normChars s.data from rfl, normChars_idem]
  · decide

end Terminal
